import Mathlib

/-!
Shallow embedding of the DynamoRIO annotation engine (`core/client/annot.c`)
and the drcachesim tracer (`tracer.cpp`), with theorems checking the
natural-language specification against the code.

Conventions: machine addresses and `ptr_uint_t` values are `Nat`; immediate
operands (`opnd_get_immed_int`) are `Int`; buffer memory is a byte map
`Nat → Nat` indexed by the offset from `buf_base`; collaborator results
(`safe_read`, `dr_raw_mem_alloc`, `dr_get_proc_address`,
`virtual2physical`) are passed in as explicit arguments.
-/

namespace Annot

/-- General-purpose register roles used by the annotation code
(`DR_REG_XBX`, `DR_REG_XDI`, `DR_REG_XAX`, ...). -/
inductive Reg : Type where
  | xbx
  | xdi
  | xax
  | xcx
  | xdx
  | gpr (n : Nat)
deriving DecidableEq, Repr

/-- Operand model (`opnd_t`): a register, an immediate integer, or some
other operand encoded by a code.  `opnd_same` is plain equality. -/
inductive Opnd : Type where
  | reg (r : Reg)
  | immed (v : Int)
  | other (code : Nat)
deriving DecidableEq, Repr

/-- `opnd_is_immed`. -/
def opnd_is_immed : Opnd → Bool
  | Opnd.immed _ => true
  | _ => false

/-- `opnd_get_immed_int` (guarded by `opnd_is_immed` at every use site;
the non-immediate default is irrelevant). -/
def opnd_get_immed_int : Opnd → Int
  | Opnd.immed v => v
  | _ => 0

/-- Opcodes relevant to the Valgrind pattern matcher (`OP_rol`, `OP_xchg`,
`OP_xor`), a synthetic marker for the appended clean call to
`handle_vg_annotation`, and everything else by numeric code. -/
inductive VgOpcode : Type where
  | rol
  | xchg
  | xorOp
  | cleanCallHandleVgAnnotation
  | otherOp (n : Nat)
deriving DecidableEq, Repr

/-- Instruction model (`instr_t`) restricted to the fields the annotation
code inspects: opcode, first source and destination operand, application
PC (`instr_get_app_pc`), translation field (`INSTR_XL8`), and the
direct-call data used by `annot_match` (`instr_is_call_direct`,
`instr_get_branch_target_pc`). -/
structure Instr : Type where
  opcode : VgOpcode
  src0 : Opnd
  dst0 : Opnd
  appPc : Nat
  xl8 : Nat
  isCallDirect : Bool
  branchTarget : Nat
deriving DecidableEq, Repr

/-- The Valgrind client-request block (`vg_client_request_t`) as read from
the instrumented program by `safe_read`. -/
structure VgClientRequest : Type where
  request : Nat
  args : List Nat
  defaultResult : Nat

/-- Handler payload: the `type` discriminator together with the
`instrumentation` union of `annotation_handler_t`. -/
inductive HandlerPayload : Type where
  | call (callback : Nat) (saveFpstate : Bool) (args : List Opnd)
  | returnValue (value : Nat)
  | valgrind (vgCallback : VgClientRequest → Nat)

/-- One `annotation_handler_t` node: the `id` union (annotation function
PC, or Valgrind request id) and the payload.  The `next_handler` pointers
of a chain are represented by a `List HandlerData` (head first). -/
structure HandlerData : Type where
  funcId : Nat
  payload : HandlerPayload

/-- The `handlers` generic hash table: an association list from key
(`KEY(annotation_func)`) to the handler chain hanging off that slot.
`generic_hash_add` prepends; `generic_hash_lookup` finds the first
matching key. -/
def Registry : Type := List (Nat × List HandlerData)

/-- `generic_hash_lookup` on the `handlers` table. -/
def generic_hash_lookup (t : Registry) (pc : Nat) : Option (List HandlerData) :=
  (List.find? (fun e => e.1 == pc) t).map (fun e => e.2)

/-- `annot_register_call`: on a fresh key, allocate a `Call` handler with
`next_handler = NULL` and add it; on a duplicate key do nothing
("else ignore duplicate registration"). -/
def annot_register_call (t : Registry) (annotation_func : Nat) (callback : Nat)
    (save_fpstate : Bool) (args : List Opnd) : Registry :=
  match generic_hash_lookup t annotation_func with
  | some _ => t
  | none =>
      (annotation_func,
        [{ funcId := annotation_func,
           payload := HandlerPayload.call callback save_fpstate args }]) :: t

/-- `annot_register_return`: same structure as `annot_register_call` with a
`ReturnValue` payload. -/
def annot_register_return (t : Registry) (annotation_func : Nat)
    (return_value : Nat) : Registry :=
  match generic_hash_lookup t annotation_func with
  | some _ => t
  | none =>
      (annotation_func,
        [{ funcId := annotation_func,
           payload := HandlerPayload.returnValue return_value }]) :: t

/-- Valgrind request ids (`valgrind_request_id_t`); the enumeration in the
collaborator header has `VG_ID__MAKE_MEM_DEFINED_IF_ADDRESSABLE` before
`VG_ID__LAST`, modelled as indices `0` and `1`. -/
def VG_ID_MAKE_MEM_DEFINED_IF_ADDRESSABLE : Nat := 0

/-- `VG_ID__LAST`: one past the last valid Valgrind request id. -/
def VG_ID_LAST : Nat := 1

/-- The `vg_handlers` direct-indexed array. -/
def VgHandlers : Type := Nat → Option HandlerData

/-- `annot_register_valgrind`: out-of-range ids are dropped; a duplicate
keeps the first handler. -/
def annot_register_valgrind (vg : VgHandlers) (request_id : Nat)
    (annotation_callback : VgClientRequest → Nat) : VgHandlers :=
  if VG_ID_LAST ≤ request_id then vg
  else
    match vg request_id with
    | some _ => vg
    | none =>
        fun i =>
          if i = request_id then
            some { funcId := request_id,
                   payload := HandlerPayload.valgrind annotation_callback }
          else vg i

/-- Module description (`module_data_t`) plus the result of
`dr_get_proc_address(handle, "dynamorio_annotate_running_on_dynamorio")`,
which is a collaborator call and is therefore supplied as data. -/
structure ModuleData : Type where
  start : Nat
  stop : Nat
  runningOnDynamorioExport : Option Nat

/-- `event_module_load`: if the module exports
`dynamorio_annotate_running_on_dynamorio`, register a `ReturnValue`
handler with value `(void *) true` (encoded `1`) at that address. -/
def event_module_load (t : Registry) (info : ModuleData) : Registry :=
  match info.runningOnDynamorioExport with
  | some target => annot_register_return t target 1
  | none => t

/-- `event_module_unload`: iterate the table and remove every entry whose
key `k` satisfies `info->start < k < info->end` (strict on both sides).
The iterate-with-removal of `generic_hash_iterate_next` /
`generic_hash_iterate_remove` visits every entry once, which on the
association list is this recursion. -/
def event_module_unload (lo hi : Nat) : Registry → Registry
  | [] => []
  | e :: rest =>
      if lo < e.1 ∧ e.1 < hi then event_module_unload lo hi rest
      else e :: event_module_unload lo hi rest

/-- The synthetic marker instruction `annot_match` creates per chain link:
a label carrying the `INSTR_ANNOTATION` flag, a note pointing at the
handler, and `ok_to_mangle = false`. -/
structure LabelInstr : Type where
  note : HandlerData
  annotationFlag : Bool
  okToMangle : Bool

/-- `annot_match`: for a direct call whose target has a handler chain,
return one marker label per chain link; otherwise return `NULL` (`none`).
The function only reads the table and the instruction, so both are
returned unchanged. -/
def annot_match (t : Registry) (instr : Instr) :
    Option (List LabelInstr) × Registry × Instr :=
  if instr.isCallDirect then
    let markers :=
      ((generic_hash_lookup t instr.branchTarget).getD []).map
        (fun h => { note := h, annotationFlag := true, okToMangle := false })
    (if markers.isEmpty then none else some markers, t, instr)
  else (none, t, instr)

/-- `expected_rol_immeds`: the immediate operands of the special `rol`
instructions of the Valgrind preamble; `{3,13,61,51}` under `X64`,
`{3,13,29,19}` otherwise (x86 and ARM). -/
def expected_rol_immeds (x64 : Bool) : Nat → Int :=
  fun i => (if x64 then [3, 13, 61, 51] else [3, 13, 29, 19]).getD i 0

/-- `VALGRIND_ANNOTATION_ROL_COUNT`. -/
def VALGRIND_ANNOTATION_ROL_COUNT : Nat := 4

/-- The body of one iteration of the rol-checking loop of
`match_valgrind_pattern`: opcode is `OP_rol`, the first source is an
immediate equal to `expected_rol_immeds[i]`, and the first destination is
the `XDI` register. -/
def rol_ok (x64 : Bool) (i : Nat) (ins : Instr) : Bool :=
  ins.opcode = VgOpcode.rol ∧
  opnd_is_immed ins.src0 ∧
  opnd_get_immed_int ins.src0 = expected_rol_immeds x64 i ∧
  ins.dst0 = Opnd.reg Reg.xdi

/-- The rol-checking loop of `match_valgrind_pattern`: walk backwards from
`instrlist_last(bb)` for `i = VALGRIND_ANNOTATION_ROL_COUNT - 1` down to
`0` (the list argument is the reversed block).  A failed check returns
`false` at once; after a passed check the walk moves to
`instr_get_prev`.  The C has no NULL guard on that walk, so when it runs
past the start of the block — an empty block, or a shorter block whose
trailing instructions all pass their rotate checks — it calls
`instr_get_opcode(NULL)` and dereferences NULL; that outcome is `none`.
`some b` is the boolean the C returns on the surviving paths. -/
def rols_match (x64 : Bool) : Nat → List Instr → Option Bool
  | _, [] => none
  | 0, ins :: _ => some (rol_ok x64 0 ins)
  | i + 1, ins :: rest =>
      if rol_ok x64 (i + 1) ins then rols_match x64 i rest else some false

/-- The `xor %xbx, %xbx` appended on a match, translation-tagged
(`INSTR_XL8`) to the app PC of the destroyed exchange. -/
def vg_xor_clear_xbx (xl8 : Nat) : Instr :=
  { opcode := VgOpcode.xorOp, src0 := Opnd.reg Reg.xbx,
    dst0 := Opnd.reg Reg.xbx, appPc := 0, xl8 := xl8,
    isCallDirect := false, branchTarget := 0 }

/-- The clean call appended on a match:
`dr_insert_clean_call(..., handle_vg_annotation, fpstate=false, 1, XAX)`,
modelled as a marker instruction whose argument operand is `XAX`. -/
def vg_clean_call : Instr :=
  { opcode := VgOpcode.cleanCallHandleVgAnnotation, src0 := Opnd.reg Reg.xax,
    dst0 := Opnd.other 0, appPc := 0, xl8 := 0,
    isCallDirect := false, branchTarget := 0 }

/-- `match_valgrind_pattern(dcontext, bb, instr)`.  `instr` is the
candidate exchange (already known to be `OP_xchg`, and *not* a member of
`bb`); `bb` holds the instructions before it.  Returns the match result
and the resulting block: on a match the last four instructions (the rols)
are removed and the xor and the clean call are appended; on a failed
check the block is untouched; `none` is the NULL dereference of the
unguarded backward walk (see `rols_match`). -/
def match_valgrind_pattern (x64 : Bool) (bb : List Instr) (instr : Instr) :
    Option (Bool × List Instr) :=
  if ¬(instr.src0 = Opnd.reg Reg.xbx ∧ instr.dst0 = Opnd.reg Reg.xbx) then
    some (false, bb)
  else
    match rols_match x64 (VALGRIND_ANNOTATION_ROL_COUNT - 1) bb.reverse with
    | none => none
    | some false => some (false, bb)
    | some true =>
        some (true,
          bb.take (bb.length - VALGRIND_ANNOTATION_ROL_COUNT) ++
            [vg_xor_clear_xbx instr.appPc, vg_clean_call])

/-- The Valgrind request number recognised by `lookup_valgrind_request`:
`VG_USERREQ__MAKE_MEM_DEFINED_IF_ADDRESSABLE` from the collaborator
header `memcheck.h` (tool base `('M'<<24) | ('C'<<16)` plus the enum
offset); its exact value is irrelevant to the theorems below. -/
def VG_USERREQ_MAKE_MEM_DEFINED_IF_ADDRESSABLE : Nat := 0x4D43000B

/-- `lookup_valgrind_request`: translate a request number to an internal
id, `VG_ID__LAST` when unknown. -/
def lookup_valgrind_request (request : Nat) : Nat :=
  if request = VG_USERREQ_MAKE_MEM_DEFINED_IF_ADDRESSABLE then
    VG_ID_MAKE_MEM_DEFINED_IF_ADDRESSABLE
  else VG_ID_LAST

/-- The integer machine context (`dr_mcontext_t` with `DR_MC_INTEGER`). -/
structure MContext : Type where
  xax : Nat
  xbx : Nat
  xcx : Nat
  xdx : Nat
deriving DecidableEq, Repr

/-- `handle_vg_annotation(request_args)`.  The `safe_read` of the request
block is a collaborator call whose outcome is the `Option` argument
(`none` = unreadable target memory).  Returns the updated integer context
and whether a registered Valgrind callback was invoked. -/
def handle_vg_annotation (vg : VgHandlers)
    (safe_read_result : Option VgClientRequest) (mc : MContext) :
    MContext × Bool :=
  match safe_read_result with
  | none => (mc, false)
  | some request =>
      let request_id := lookup_valgrind_request request.request
      let found :=
        if request_id < VG_ID_LAST then
          match vg request_id with
          | some h =>
              match h.payload with
              | HandlerPayload.valgrind cb => some (cb request)
              | _ => none
          | none => none
        else none
      match found with
      | some result => ({ mc with xbx := result }, true)
      | none => ({ mc with xbx := request.defaultResult }, false)

/-- The specification's statement of the Valgrind client-request shape,
for comparison with `match_valgrind_pattern`: the candidate exchange has
both its source and destination equal to the `XBX` register, and the four
preceding instructions of the block (walked backwards from the last) are
rotates whose immediate operands equal the architecture's expected
immediates in reverse order, with destination `XDI`. -/
def valgrind_pattern_shape (x64 : Bool) (bb : List Instr) (instr : Instr) :
    Prop :=
  instr.src0 = Opnd.reg Reg.xbx ∧ instr.dst0 = Opnd.reg Reg.xbx ∧
  4 ≤ bb.length ∧
  ∀ j, j < 4 → rol_ok x64 (3 - j) (bb.reverse.getD j vg_clean_call) = true

instance (x64 : Bool) (bb : List Instr) (instr : Instr) :
    Decidable (valgrind_pattern_shape x64 bb instr) := by
  unfold valgrind_pattern_shape
  exact inferInstance

/-- The inputs on which the backward rotate walk of
`match_valgrind_pattern` runs past the start of the block and the C
dereferences a NULL instruction: the exchange operands both equal `XBX`,
the block is shorter than the four-rotate preamble, and every one of its
trailing instructions passes its rotate check (vacuously so for an empty
block). -/
def valgrind_walk_off_block (x64 : Bool) (bb : List Instr) (instr : Instr) :
    Prop :=
  instr.src0 = Opnd.reg Reg.xbx ∧ instr.dst0 = Opnd.reg Reg.xbx ∧
  bb.length < 4 ∧
  ∀ j, j < bb.length →
    rol_ok x64 (3 - j) (bb.reverse.getD j vg_clean_call) = true

end Annot

namespace Tracer

/-- Trace entry types inspected by the drain (`trace_type_t`); everything
the walk does not mention specifically is a data-reference type. -/
inductive TraceType : Type where
  | instr
  | instrBundle
  | thread
  | threadExit
  | pid
  | dataRef (n : Nat)
deriving DecidableEq, Repr

/-- One fixed-size trace entry as seen through the `instru` collaborator
accessors (`get_entry_type`, `get_entry_addr`, `set_entry_addr`). -/
structure Entry : Type where
  etype : TraceType
  addr : Nat
deriving DecidableEq, Repr

/-- The tracer's global configuration: option values fixed at init
(`op_offline`, `op_max_trace_size`, `op_use_physical`, ...), the derived
buffer geometry (`trace_buf_size`, `redzone_size`, `buf_hdr_slots_size`),
the pipe's atomic write size, `sizeof_entry()`, whether a handoff
callback is installed (`file_ops_func.handoff_buf != NULL`), and the
bytes `instru->append_unit_header` writes for a given thread id
(an opaque collaborator serialization). -/
structure TracerGlobals : Type where
  offline : Bool
  traceBufSize : Nat
  redzoneSize : Nat
  bufHdrSlotsSize : Nat
  atomicWriteSize : Nat
  sizeofEntry : Nat
  maxTraceSize : Nat
  havePhys : Bool
  usePhysical : Bool
  handoffBuf : Bool
  unitHeaderByte : Nat → Nat → Nat

/-- The thread-private tracer state (`per_thread_t`) that the modelled
operations touch.  `bufBase` and `reserveBuf` are abstract allocation
identities (which buffer the thread writes to), not addresses inside the
buffer. -/
structure ThreadData : Type where
  numRefs : Nat
  bytesWritten : Nat
  initHeaderSize : Nat
  numBuffers : Nat
  bufBase : Nat
  reserveBuf : Option Nat
deriving DecidableEq, Repr

/-- `memset(m + lo, v, len)` on a byte map indexed from `buf_base`. -/
def memsetFn (m : Nat → Nat) (lo len v : Nat) : Nat → Nat :=
  fun i => if lo ≤ i ∧ i < lo + len then v else m i

/-- `create_buffer(data)`.  The two `dr_raw_mem_alloc` outcomes are
collaborator results: `primaryAlloc` for the main buffer and
`reserveAlloc` for the lazily created reserve (`none` = allocation
failed).  Returns `none` on the `FATAL` out-of-memory abort; otherwise
the updated `op_max_trace_size` option value and thread state.
`op_max_trace_size` is a `uint64`, so `bytes_written - 1` wraps
modulo `2 ^ 64`. -/
def create_buffer (primaryAlloc reserveAlloc : Option Nat)
    (maxTraceSize : Nat) (d : ThreadData) : Option (Nat × ThreadData) :=
  match primaryAlloc with
  | none =>
      match d.reserveBuf with
      | none => none
      | some rb =>
          some ((d.bytesWritten + (2 ^ 64 - 1)) % 2 ^ 64,
                { d with bufBase := rb })
  | some nb =>
      let d1 := { d with bufBase := nb, numBuffers := d.numBuffers + 1 }
      let d2 :=
        if d1.numBuffers = 2 then { d1 with reserveBuf := reserveAlloc }
        else d1
      some (maxTraceSize, d2)

/-- The mutable locals of the online splitting walk: `pipe_start`,
`pipe_end` (offsets from `buf_base`) and the writes issued so far, each
recorded as its `(start, end)` offsets. -/
structure PipeState : Type where
  pipeStart : Nat
  pipeEnd : Nat
  writes : List (Nat × Nat)
deriving DecidableEq, Repr

/-- `atomic_pipe_write(drcontext, pipe_start, pipe_end)`: issue one write
of `[pipe_start, pipe_end)` and re-emit the thread-id header at
`pipe_end - buf_hdr_slots_size`, which becomes the new `pipe_start`. -/
def atomic_pipe_write (hdr : Nat) (st : PipeState) : PipeState :=
  { pipeStart := st.pipeEnd - hdr, pipeEnd := st.pipeEnd,
    writes := st.writes ++ [(st.pipeStart, st.pipeEnd)] }

/-- One iteration of the online-splitting part of the `memtrace` walk for
the entry at offset `off`: at a `TRACE_TYPE_INSTR` entry, first flush
`[pipe_start, pipe_end)` if the pending span exceeds the atomic write
size, then advance `pipe_end` to this entry. -/
def pipeStep (atomic hdr off : Nat) (e : Entry) (st : PipeState) : PipeState :=
  if e.etype = TraceType.instr then
    let st1 :=
      if atomic < off - st.pipeStart then atomic_pipe_write hdr st else st
    { st1 with pipeEnd := off }
  else st

/-- The online-splitting walk over the drained entries, whose first entry
sits at offset `off` and which are `esz = sizeof_entry()` apart. -/
def pipeLoop (atomic esz hdr : Nat) : Nat → List Entry → PipeState → PipeState
  | _, [], st => st
  | off, e :: rest, st =>
      pipeLoop atomic esz hdr (off + esz) rest (pipeStep atomic hdr off e st)

/-- The complete list of pipe writes `memtrace` issues online: the
in-loop splits followed by the two trailing flushes (`buf_ptr` past the
atomic size, then the remainder when it still holds more than the
re-emitted header). -/
def memtracePipeWrites (atomic esz hdr base bufPtr : Nat)
    (entries : List Entry) : List (Nat × Nat) :=
  let st := pipeLoop atomic esz hdr base entries
    { pipeStart := 0, pipeEnd := 0, writes := [] }
  let st1 := if atomic < bufPtr - st.pipeStart then atomic_pipe_write hdr st else st
  if hdr < bufPtr - st1.pipeStart then st1.writes ++ [(st1.pipeStart, bufPtr)]
  else st1.writes

/-- The per-entry physical-address rewrite of the walk: skip
thread/thread-exit/pid entries; otherwise replace the address with
`virtual2physical(virt)` when that is nonzero, else keep the virtual
address (logging the failure). -/
def physRewrite (v2p : Nat → Nat) (e : Entry) : Entry :=
  if e.etype = TraceType.thread ∨ e.etype = TraceType.threadExit ∨
     e.etype = TraceType.pid then e
  else if v2p e.addr ≠ 0 then { e with addr := v2p e.addr } else e

/-- Everything `memtrace` produces: the new thread counters, the drained
buffer's bytes, the rewound TLS buffer pointer, the (possibly updated)
`op_max_trace_size`, the pipe writes, the offline write-or-handoff span,
and the control-flow facts the claims talk about. -/
structure DrainOutcome : Type where
  thread : ThreadData
  mem : Nat → Nat
  bufPtr : Nat
  maxTraceSize : Nat
  pipeWrites : List (Nat × Nat)
  offlineWrite : Option (Nat × Nat)
  handedOff : Bool
  doWrite : Bool
  earlyReturn : Bool
  entriesOut : List Entry

/-- A freshly allocated trace buffer: `dr_raw_mem_alloc` zeroes it and
`create_buffer` paints the redzone sentinel. -/
def freshBufferMem (g : TracerGlobals) : Nat → Nat :=
  fun i => if g.traceBufSize ≤ i ∧ i < g.traceBufSize + g.redzoneSize then 255
           else 0

/-- `memtrace(drcontext, skip_size_cap)`.

Inputs supplied for the collaborators and the thread's current state:
`v2p` is `physaddr.virtual2physical`; `tid` is `dr_get_thread_id`;
`mem` is the byte content of the current buffer (offsets from
`buf_base`); `entries` is the instru-level decoding of the filled region
`[buf_base + header_size, buf_ptr)`, so the TLS buffer pointer is at
offset `header_size + sizeof_entry() * entries.length`; `primaryAlloc`
and `reserveAlloc` feed the `create_buffer` call of the handoff path.
`none` models the fatal abort inside that call.  On handoff the returned
`mem` is the drained buffer now owned by the callback, and the thread
continues on a fresh buffer. -/
def memtrace (g : TracerGlobals) (v2p : Nat → Nat) (tid : Nat)
    (skip_size_cap : Bool) (d : ThreadData) (mem : Nat → Nat)
    (entries : List Entry) (primaryAlloc reserveAlloc : Option Nat) :
    Option DrainOutcome :=
  let header_size :=
    if d.numRefs = 0 ∧ g.offline then d.initHeaderSize else g.bufHdrSlotsSize
  let buf_ptr := header_size + g.sizeofEntry * entries.length
  if buf_ptr = g.bufHdrSlotsSize then
    some { thread := d, mem := mem, bufPtr := buf_ptr,
           maxTraceSize := g.maxTraceSize, pipeWrites := [],
           offlineWrite := none, handedOff := false, doWrite := false,
           earlyReturn := true, entriesOut := entries }
  else
    let mem1 :=
      if d.numRefs = 0 ∧ g.offline then mem
      else fun i => if i < g.bufHdrSlotsSize then g.unitHeaderByte tid i
                    else mem i
    let do_write :=
      ¬(¬skip_size_cap ∧ 0 < g.maxTraceSize ∧
        g.maxTraceSize < d.bytesWritten)
    let bytesWritten1 :=
      if do_write then d.bytesWritten + buf_ptr else d.bytesWritten
    let numRefs1 := if do_write then d.numRefs + entries.length else d.numRefs
    let entries1 :=
      if do_write ∧ g.havePhys ∧ g.usePhysical then
        entries.map (physRewrite v2p)
      else entries
    let pipeWrites :=
      if do_write ∧ ¬g.offline then
        memtracePipeWrites g.atomicWriteSize g.sizeofEntry g.bufHdrSlotsSize
          header_size buf_ptr entries
      else []
    let offlineWrite :=
      if do_write ∧ g.offline then some (0, buf_ptr) else none
    let d1 := { d with bytesWritten := bytesWritten1, numRefs := numRefs1 }
    if do_write ∧ g.handoffBuf then
      (create_buffer primaryAlloc reserveAlloc g.maxTraceSize d1).map
        (fun p =>
          { thread := p.2, mem := mem1, bufPtr := g.bufHdrSlotsSize,
            maxTraceSize := p.1, pipeWrites := pipeWrites,
            offlineWrite := offlineWrite, handedOff := true,
            doWrite := do_write, earlyReturn := false,
            entriesOut := entries1 })
    else
      let mem2 := memsetFn mem1 0 g.traceBufSize 0
      let mem3 :=
        if g.traceBufSize < buf_ptr then
          memsetFn mem2 g.traceBufSize (buf_ptr - g.traceBufSize) 255
        else mem2
      some { thread := d1, mem := mem3, bufPtr := g.bufHdrSlotsSize,
             maxTraceSize := g.maxTraceSize, pipeWrites := pipeWrites,
             offlineWrite := offlineWrite, handedOff := false,
             doWrite := do_write, earlyReturn := false,
             entriesOut := entries1 }

/-- Whether `off` is the starting offset of a `TRACE_TYPE_INSTR` entry of
a walked region whose first entry sits at offset `base`. -/
def isInstrOffset (esz : Nat) : Nat → List Entry → Nat → Bool
  | _, [], _ => false
  | base, e :: rest, off =>
      (decide (off = base) && decide (e.etype = TraceType.instr)) ||
        isInstrOffset esz (base + esz) rest off

/-- The entry-spacing assumption under which `atomic_pipe_write`'s own
assertion (`towrite <= atomic_write_size`) holds: walking the drained
entries, the distance `d` from the previous split boundary (the previous
`INSTR` entry, or `buf_base` at the start) to each `INSTR` entry — and
finally to `buf_ptr` — leaves room for the re-emitted unit header.  This
is the code comment's "only a few data entries in between instr
entries". -/
def gapsOk (atomic esz hdr : Nat) : Nat → List Entry → Bool
  | d, [] => decide (d + hdr ≤ atomic)
  | d, e :: rest =>
      if e.etype = TraceType.instr then
        decide (d + hdr ≤ atomic) && gapsOk atomic esz hdr esz rest
      else gapsOk atomic esz hdr (d + esz) rest

/-- A sequence of drains following some point in a thread's life: each
step calls `memtrace` with `skip_size_cap = false` on the next batch of
buffered entries, threading the thread state, the buffer bytes and the
(mutable) `op_max_trace_size` option. -/
def subsequentDrains (g : TracerGlobals) (v2p : Nat → Nat) (tid : Nat) :
    Nat → ThreadData → (Nat → Nat) → List (List Entry) → List DrainOutcome
  | _, _, _, [] => []
  | maxT, d, mem, es :: rest =>
      match memtrace { g with maxTraceSize := maxT } v2p tid false d mem es
          none none with
      | none => []
      | some out =>
          out :: subsequentDrains g v2p tid out.maxTraceSize out.thread
            out.mem rest

/-- Invariant of the online splitting walk: `pipe_start` trails
`pipe_end`, `pipe_end` is behind the current entry, the pending span fits
one atomic write, `pipe_end` is `buf_base` or a previous `INSTR`
boundary (`P`), and every write issued so far fits the atomic size and
ends at a boundary. -/
def PipeInv (atomic hdr : Nat) (P : Nat → Prop) (off : Nat)
    (st : PipeState) : Prop :=
  st.pipeStart ≤ st.pipeEnd ∧ st.pipeEnd ≤ off ∧
  st.pipeEnd - st.pipeStart ≤ atomic ∧
  (st.pipeEnd = 0 → st.pipeStart = 0) ∧
  (st.pipeEnd ≠ 0 → P st.pipeEnd ∧ hdr ≤ st.pipeEnd) ∧
  (∀ w ∈ st.writes, w.2 - w.1 ≤ atomic ∧ P w.2)

/-- A concrete tracer configuration for the closed instance theorems:
online mode, 8-byte entries, one header slot, 64-byte trace region and
redzone, 32-byte atomic pipe writes, 10-byte size cap. -/
def exampleGlobals : TracerGlobals :=
  { offline := false, traceBufSize := 64, redzoneSize := 64,
    bufHdrSlotsSize := 8, atomicWriteSize := 32, sizeofEntry := 8,
    maxTraceSize := 10, havePhys := false, usePhysical := false,
    handoffBuf := false, unitHeaderByte := fun _ _ => 1 }

/-- A concrete thread state that has already written 11 bytes (past the
10-byte cap of `exampleGlobals`) and counted 5 entries. -/
def exampleThread : ThreadData :=
  { numRefs := 5, bytesWritten := 11, initHeaderSize := 8, numBuffers := 1,
    bufBase := 0, reserveBuf := none }

/-- A concrete buffer content (every byte 3) for the instance theorems. -/
def exampleMem : Nat → Nat := fun _ => 3

/-- A concrete thread state still under the size cap of
`exampleGlobals`. -/
def exampleThreadFresh : ThreadData :=
  { numRefs := 3, bytesWritten := 5, initHeaderSize := 8, numBuffers := 1,
    bufBase := 0, reserveBuf := none }

/-- A concrete thread state owning a reserve buffer (id 2) and having
written 20 bytes. -/
def exampleThreadReserve : ThreadData :=
  { numRefs := 9, bytesWritten := 20, initHeaderSize := 8, numBuffers := 2,
    bufBase := 1, reserveBuf := some 2 }

/-- Eight concrete buffered entries (instruction entries every third
slot) satisfying the `gapsOk` spacing of `exampleGlobals`; they fill the
buffer past the 64-byte trace region into the redzone. -/
def exampleEntries8 : List Entry :=
  [{ etype := TraceType.instr, addr := 0x100 },
   { etype := TraceType.dataRef 0, addr := 0x200 },
   { etype := TraceType.dataRef 1, addr := 0x208 },
   { etype := TraceType.instr, addr := 0x104 },
   { etype := TraceType.dataRef 0, addr := 0x210 },
   { etype := TraceType.dataRef 1, addr := 0x218 },
   { etype := TraceType.instr, addr := 0x108 },
   { etype := TraceType.dataRef 0, addr := 0x220 }]

end Tracer

namespace Annot

lemma generic_hash_lookup_nil (pc : Nat) :
    generic_hash_lookup [] pc = none := rfl

lemma generic_hash_lookup_cons (e : Nat × List HandlerData) (t : Registry)
    (pc : Nat) :
    generic_hash_lookup (e :: t) pc =
      if e.1 = pc then some e.2 else generic_hash_lookup t pc := by
  by_cases h : e.1 = pc
  · subst h
    simp [generic_hash_lookup, List.find?]
  · have hb : (e.1 == pc) = false := beq_eq_false_iff_ne.mpr h
    simp [generic_hash_lookup, List.find?, hb, h]

lemma event_module_unload_removes (lo hi : Nat) (t : Registry) (k : Nat)
    (h1 : lo < k) (h2 : k < hi) :
    generic_hash_lookup (event_module_unload lo hi t) k = none := by
  induction t with
  | nil => rfl
  | cons e rest ih =>
      rw [event_module_unload]
      by_cases hin : lo < e.1 ∧ e.1 < hi
      · rw [if_pos hin]
        exact ih
      · have hne : e.1 ≠ k := fun hk => hin (hk ▸ ⟨h1, h2⟩)
        rw [if_neg hin, generic_hash_lookup_cons, if_neg hne]
        exact ih

lemma event_module_unload_keeps (lo hi : Nat) (t : Registry) (k : Nat)
    (h : ¬(lo < k ∧ k < hi)) :
    generic_hash_lookup (event_module_unload lo hi t) k =
      generic_hash_lookup t k := by
  induction t with
  | nil => rfl
  | cons e rest ih =>
      rw [event_module_unload]
      by_cases hin : lo < e.1 ∧ e.1 < hi
      · have hne : e.1 ≠ k := fun hk => h (hk ▸ hin)
        rw [if_pos hin, ih, generic_hash_lookup_cons, if_neg hne]
      · rw [if_neg hin, generic_hash_lookup_cons, generic_hash_lookup_cons, ih]

/-- C2: after the module-unload sweep over `(lo, hi)`, no key strictly
inside the interval is reachable by lookup, and every key outside the
open interval still looks up exactly what it did before the sweep. -/
theorem event_module_unload_sweep (lo hi : Nat) (t : Registry)
    (_hlohi : lo < hi) :
    (∀ k, lo < k → k < hi →
        generic_hash_lookup (event_module_unload lo hi t) k = none) ∧
    (∀ k, ¬(lo < k ∧ k < hi) →
        generic_hash_lookup (event_module_unload lo hi t) k =
          generic_hash_lookup t k) :=
  ⟨fun k h1 h2 => event_module_unload_removes lo hi t k h1 h2,
   fun k h => event_module_unload_keeps lo hi t k h⟩

/-- Concrete instance of the sweep theorem: keys 0x1000 and 0x3000 survive
a sweep of (0x1500, 0x2500) while 0x2000 is removed. -/
theorem event_module_unload_sweep_witness :
    (0x1500 : Nat) < 0x2500 ∧
    generic_hash_lookup
        (event_module_unload 0x1500 0x2500
          [(0x1000, []), (0x2000, []), (0x3000, [])]) 0x2000 = none ∧
    generic_hash_lookup
        (event_module_unload 0x1500 0x2500
          [(0x1000, []), (0x2000, []), (0x3000, [])]) 0x1000 =
      generic_hash_lookup [(0x1000, []), (0x2000, []), (0x3000, [])] 0x1000 := by
  refine ⟨by norm_num, ?_, ?_⟩
  · exact (event_module_unload_sweep 0x1500 0x2500
      [(0x1000, []), (0x2000, []), (0x3000, [])] (by norm_num)).1
      0x2000 (by norm_num) (by norm_num)
  · exact (event_module_unload_sweep 0x1500 0x2500
      [(0x1000, []), (0x2000, []), (0x3000, [])] (by norm_num)).2
      0x1000 (by norm_num)

lemma annot_register_call_of_registered (t : Registry) (f cb : Nat)
    (sfp : Bool) (args : List Opnd) (xs : List HandlerData)
    (h : generic_hash_lookup t f = some xs) :
    annot_register_call t f cb sfp args = t := by
  simp [annot_register_call, h]

/-- C3: starting from a registry with no handler for `f`, the first
`annot_register_call` stores a `Call` handler built from its arguments,
and any sequence of later `annot_register_call` invocations with the same
`f` leaves the registry — hence that stored handler — untouched. -/
theorem annot_register_call_first_wins (t : Registry) (f cb : Nat)
    (sfp : Bool) (args : List Opnd) (later : List (Nat × Bool × List Opnd))
    (h : generic_hash_lookup t f = none) :
    generic_hash_lookup (annot_register_call t f cb sfp args) f =
      some [{ funcId := f, payload := HandlerPayload.call cb sfp args }] ∧
    List.foldl (fun acc c => annot_register_call acc f c.1 c.2.1 c.2.2)
        (annot_register_call t f cb sfp args) later =
      annot_register_call t f cb sfp args := by
  have hreg : annot_register_call t f cb sfp args =
      (f, [{ funcId := f, payload := HandlerPayload.call cb sfp args }]) :: t := by
    simp [annot_register_call, h]
  have hlook : generic_hash_lookup (annot_register_call t f cb sfp args) f =
      some [{ funcId := f, payload := HandlerPayload.call cb sfp args }] := by
    rw [hreg, generic_hash_lookup_cons]
    simp
  refine ⟨hlook, ?_⟩
  induction later with
  | nil => rfl
  | cons c rest ih =>
      rw [List.foldl_cons,
        annot_register_call_of_registered _ f c.1 c.2.1 c.2.2 _ hlook]
      exact ih

/-- Concrete instance of registration idempotence: a second and third
registration at the same PC change nothing. -/
theorem annot_register_call_first_wins_witness :
    generic_hash_lookup ([] : Registry) 0x400100 = none ∧
    List.foldl (fun acc c => annot_register_call acc 0x400100 c.1 c.2.1 c.2.2)
        (annot_register_call [] 0x400100 7 true [Opnd.reg Reg.xax])
        [(8, false, []), (9, true, [])] =
      annot_register_call [] 0x400100 7 true [Opnd.reg Reg.xax] :=
  ⟨rfl,
   (annot_register_call_first_wins [] 0x400100 7 true [Opnd.reg Reg.xax]
      [(8, false, []), (9, true, [])] rfl).2⟩

/-- C4: when the `safe_read` of the Valgrind client-request block fails,
`handle_vg_annotation` returns with no side effects: no registered
callback is invoked and the integer machine context — the `XBX` register
included — keeps its current value. -/
theorem handle_vg_annotation_safe_read_failure (vg : VgHandlers)
    (mc : MContext) :
    handle_vg_annotation vg none mc = (mc, false) ∧
    ( handle_vg_annotation vg none mc).1.xbx = mc.xbx :=
  ⟨rfl, rfl⟩

/-- C9: on a module-load event for a module exporting
`dynamorio_annotate_running_on_dynamorio`, the core registers a
`ReturnValue` handler with value `true` at the exported address, so a
lookup of that PC finds it although no client registered anything. -/
theorem event_module_load_registers_return (t : Registry)
    (info : ModuleData) (a : Nat)
    (hexp : info.runningOnDynamorioExport = some a)
    (hfresh : generic_hash_lookup t a = none) :
    generic_hash_lookup (event_module_load t info) a =
      some [{ funcId := a, payload := HandlerPayload.returnValue 1 }] := by
  have hreg : annot_register_return t a 1 =
      (a, [{ funcId := a, payload := HandlerPayload.returnValue 1 }]) :: t := by
    simp [annot_register_return, hfresh]
  rw [event_module_load, hexp]
  show generic_hash_lookup (annot_register_return t a 1) a = _
  rw [hreg, generic_hash_lookup_cons]
  simp

/-- Concrete instance of the module-load auto-registration. -/
theorem event_module_load_registers_return_witness :
    generic_hash_lookup
        (event_module_load []
          { start := 0x7000, stop := 0x8000,
            runningOnDynamorioExport := some 0x7abc }) 0x7abc =
      some [{ funcId := 0x7abc, payload := HandlerPayload.returnValue 1 }] :=
  event_module_load_registers_return []
    { start := 0x7000, stop := 0x8000,
      runningOnDynamorioExport := some 0x7abc } 0x7abc rfl rfl

/-- C10: `annot_match` on an instruction that is not a direct call, or a
direct call whose target has no registered handler, returns the absent
result and leaves the registry and the instruction unchanged. -/
theorem annot_match_absent (t : Registry) (ins : Instr)
    (h : ins.isCallDirect = false ∨
      generic_hash_lookup t ins.branchTarget = none) :
    annot_match t ins = (none, t, ins) := by
  rcases h with h | h
  · simp [annot_match, h]
  · by_cases hc : ins.isCallDirect <;> simp [annot_match, hc, h]

/-- Concrete instance of `annot_match` on a direct call with an empty
registry. -/
theorem annot_match_absent_witness :
    annot_match []
        { opcode := VgOpcode.otherOp 0, src0 := Opnd.other 0,
          dst0 := Opnd.other 0, appPc := 0, xl8 := 0,
          isCallDirect := true, branchTarget := 0x400100 } =
      (none, [],
        { opcode := VgOpcode.otherOp 0, src0 := Opnd.other 0,
          dst0 := Opnd.other 0, appPc := 0, xl8 := 0,
          isCallDirect := true, branchTarget := 0x400100 }) :=
  annot_match_absent _ _ (Or.inr rfl)

end Annot

namespace Annot

lemma rols_match_nil (x64 : Bool) (i : Nat) : rols_match x64 i [] = none := by
  cases i <;> rfl

lemma rols_match_some_true_iff (x64 : Bool) (rev : List Instr) :
    rols_match x64 3 rev = some true ↔
      (4 ≤ rev.length ∧
        ∀ j, j < 4 → rol_ok x64 (3 - j) (rev.getD j vg_clean_call) = true) := by
  rcases rev with _ | ⟨a, _ | ⟨b, _ | ⟨c, _ | ⟨d, rest⟩⟩⟩⟩
  · rw [rols_match_nil]
    simp
  · rw [show rols_match x64 3 [a] =
        (if rol_ok x64 3 a then none else some false) from rfl]
    by_cases h3 : rol_ok x64 3 a <;> simp [h3]
  · rw [show rols_match x64 3 [a, b] =
        (if rol_ok x64 3 a then
          (if rol_ok x64 2 b then none else some false)
         else some false) from rfl]
    by_cases h3 : rol_ok x64 3 a <;> by_cases h2 : rol_ok x64 2 b <;>
      simp [h3, h2]
  · rw [show rols_match x64 3 [a, b, c] =
        (if rol_ok x64 3 a then
          (if rol_ok x64 2 b then
            (if rol_ok x64 1 c then none else some false)
           else some false)
         else some false) from rfl]
    by_cases h3 : rol_ok x64 3 a <;> by_cases h2 : rol_ok x64 2 b <;>
      by_cases h1 : rol_ok x64 1 c <;> simp [h3, h2, h1]
  · rw [show rols_match x64 3 (a :: b :: c :: d :: rest) =
        (if rol_ok x64 3 a then
          (if rol_ok x64 2 b then
            (if rol_ok x64 1 c then some (rol_ok x64 0 d) else some false)
           else some false)
         else some false) from rfl]
    constructor
    · intro h
      by_cases h3 : rol_ok x64 3 a
      · by_cases h2 : rol_ok x64 2 b
        · by_cases h1 : rol_ok x64 1 c
          · rw [if_pos h3, if_pos h2, if_pos h1] at h
            have h0 : rol_ok x64 0 d = true := by
              simpa using Option.some.inj h
            refine ⟨by simp, ?_⟩
            intro j hj
            interval_cases j
            · simpa using h3
            · simpa using h2
            · simpa using h1
            · simpa using h0
          · rw [if_pos h3, if_pos h2, if_neg h1] at h
            simp at h
        · rw [if_pos h3, if_neg h2] at h
          simp at h
      · rw [if_neg h3] at h
        simp at h
    · rintro ⟨-, hall⟩
      have h0 := hall 0 (by norm_num)
      have h1 := hall 1 (by norm_num)
      have h2 := hall 2 (by norm_num)
      have h3 := hall 3 (by norm_num)
      simp at h0 h1 h2 h3
      simp [h0, h1, h2, h3]

lemma rols_match_none_iff (x64 : Bool) (rev : List Instr) :
    rols_match x64 3 rev = none ↔
      (rev.length < 4 ∧
        ∀ j, j < rev.length →
          rol_ok x64 (3 - j) (rev.getD j vg_clean_call) = true) := by
  rcases rev with _ | ⟨a, _ | ⟨b, _ | ⟨c, _ | ⟨d, rest⟩⟩⟩⟩
  · rw [rols_match_nil]
    simp
  · rw [show rols_match x64 3 [a] =
        (if rol_ok x64 3 a then none else some false) from rfl]
    by_cases h3 : rol_ok x64 3 a
    · rw [if_pos h3]
      constructor
      · intro _
        refine ⟨by simp, ?_⟩
        intro j hj
        simp only [List.length_cons, List.length_nil] at hj
        interval_cases j
        · simpa using h3
      · intro _
        rfl
    · rw [if_neg h3]
      constructor
      · intro h
        simp at h
      · rintro ⟨-, hall⟩
        have ha := hall 0 (by simp)
        simp at ha
        exact absurd ha h3
  · rw [show rols_match x64 3 [a, b] =
        (if rol_ok x64 3 a then
          (if rol_ok x64 2 b then none else some false)
         else some false) from rfl]
    by_cases h3 : rol_ok x64 3 a
    · by_cases h2 : rol_ok x64 2 b
      · rw [if_pos h3, if_pos h2]
        constructor
        · intro _
          refine ⟨by simp, ?_⟩
          intro j hj
          simp only [List.length_cons, List.length_nil] at hj
          interval_cases j
          · simpa using h3
          · simpa using h2
        · intro _
          rfl
      · rw [if_pos h3, if_neg h2]
        constructor
        · intro h
          simp at h
        · rintro ⟨-, hall⟩
          have hb := hall 1 (by simp)
          simp at hb
          exact absurd hb h2
    · rw [if_neg h3]
      constructor
      · intro h
        simp at h
      · rintro ⟨-, hall⟩
        have ha := hall 0 (by simp)
        simp at ha
        exact absurd ha h3
  · rw [show rols_match x64 3 [a, b, c] =
        (if rol_ok x64 3 a then
          (if rol_ok x64 2 b then
            (if rol_ok x64 1 c then none else some false)
           else some false)
         else some false) from rfl]
    by_cases h3 : rol_ok x64 3 a
    · by_cases h2 : rol_ok x64 2 b
      · by_cases h1 : rol_ok x64 1 c
        · rw [if_pos h3, if_pos h2, if_pos h1]
          constructor
          · intro _
            refine ⟨by simp, ?_⟩
            intro j hj
            simp only [List.length_cons, List.length_nil] at hj
            interval_cases j
            · simpa using h3
            · simpa using h2
            · simpa using h1
          · intro _
            rfl
        · rw [if_pos h3, if_pos h2, if_neg h1]
          constructor
          · intro h
            simp at h
          · rintro ⟨-, hall⟩
            have hc := hall 2 (by simp)
            simp at hc
            exact absurd hc h1
      · rw [if_pos h3, if_neg h2]
        constructor
        · intro h
          simp at h
        · rintro ⟨-, hall⟩
          have hb := hall 1 (by simp)
          simp at hb
          exact absurd hb h2
    · rw [if_neg h3]
      constructor
      · intro h
        simp at h
      · rintro ⟨-, hall⟩
        have ha := hall 0 (by simp)
        simp at ha
        exact absurd ha h3
  · rw [show rols_match x64 3 (a :: b :: c :: d :: rest) =
        (if rol_ok x64 3 a then
          (if rol_ok x64 2 b then
            (if rol_ok x64 1 c then some (rol_ok x64 0 d) else some false)
           else some false)
         else some false) from rfl]
    constructor
    · intro h
      by_cases h3 : rol_ok x64 3 a <;> by_cases h2 : rol_ok x64 2 b <;>
        by_cases h1 : rol_ok x64 1 c <;> simp [h3, h2, h1] at h
    · rintro ⟨hlt, -⟩
      simp only [List.length_cons] at hlt
      omega

/-- C1 counterexample: the x86 block holding only `rol edi, 19` — which
passes its rotate check — together with a candidate `xchg ebx, ebx`.
The claim says every non-matching input yields false with the block
unchanged; instead the backward walk runs past the start of the block
and the C dereferences a NULL instruction (outcome `none`). -/
theorem match_valgrind_pattern_short_block_counterexample :
    match_valgrind_pattern false
        [⟨VgOpcode.rol, Opnd.immed 19, Opnd.reg Reg.xdi, 0, 0, false, 0⟩]
        ⟨VgOpcode.xchg, Opnd.reg Reg.xbx, Opnd.reg Reg.xbx, 0x1234, 0,
          false, 0⟩ = none ∧
    ¬(match_valgrind_pattern false
        [⟨VgOpcode.rol, Opnd.immed 19, Opnd.reg Reg.xdi, 0, 0, false, 0⟩]
        ⟨VgOpcode.xchg, Opnd.reg Reg.xbx, Opnd.reg Reg.xbx, 0x1234, 0,
          false, 0⟩ =
      some (false,
        [⟨VgOpcode.rol, Opnd.immed 19, Opnd.reg Reg.xdi, 0, 0, false,
          0⟩])) :=
  ⟨rfl, by decide⟩

/-- C1 (amended): `match_valgrind_pattern` returns true exactly on the
Valgrind shape, removing the four rotates (the destroyed exchange was
never a member of the block) and ending the block with exactly one `xor`
clearing `XBX`, translation-tagged to the exchange's app PC, followed by
the clean call to `handle_vg_annotation` with `XAX` as its argument.  On
every non-matching input on which the backward walk stays within the
block it returns false with the block unchanged; and when the exchange
operands match but the block is shorter than the preamble with every
trailing instruction passing its rotate check, the walk runs off the
block and the C dereferences NULL instead of returning. -/
theorem match_valgrind_pattern_correct (x64 : Bool) (bb : List Instr)
    (instr : Instr) :
    (valgrind_pattern_shape x64 bb instr →
       match_valgrind_pattern x64 bb instr =
         some (true, bb.take (bb.length - 4) ++
            [vg_xor_clear_xbx instr.appPc, vg_clean_call])) ∧
    (¬valgrind_pattern_shape x64 bb instr →
      ¬valgrind_walk_off_block x64 bb instr →
       match_valgrind_pattern x64 bb instr = some (false, bb)) ∧
    (valgrind_walk_off_block x64 bb instr →
       match_valgrind_pattern x64 bb instr = none) := by
  have hlenrev : bb.reverse.length = bb.length := List.length_reverse bb
  refine ⟨?_, ?_, ?_⟩
  · rintro ⟨hsrc, hdst, hlen, hall⟩
    have hmatch : rols_match x64 3 bb.reverse = some true :=
      (rols_match_some_true_iff x64 bb.reverse).2 ⟨by omega, hall⟩
    simp [match_valgrind_pattern, VALGRIND_ANNOTATION_ROL_COUNT, hsrc, hdst,
      hmatch]
  · intro hnshape hnwalk
    by_cases hops : instr.src0 = Opnd.reg Reg.xbx ∧
        instr.dst0 = Opnd.reg Reg.xbx
    · rcases hops with ⟨hsrc, hdst⟩
      rcases hres : rols_match x64 3 bb.reverse with _ | b
      · obtain ⟨hlen, hall⟩ := (rols_match_none_iff x64 bb.reverse).1 hres
        exact absurd
          ⟨hsrc, hdst, by omega, fun j hj => hall j (by omega)⟩ hnwalk
      · cases b with
        | true =>
            obtain ⟨hlen, hall⟩ :=
              (rols_match_some_true_iff x64 bb.reverse).1 hres
            exact absurd ⟨hsrc, hdst, by omega, hall⟩ hnshape
        | false =>
            simp [match_valgrind_pattern, VALGRIND_ANNOTATION_ROL_COUNT,
              hsrc, hdst, hres]
    · simp [match_valgrind_pattern, hops]
  · rintro ⟨hsrc, hdst, hlen, hall⟩
    have hnone : rols_match x64 3 bb.reverse = none :=
      (rols_match_none_iff x64 bb.reverse).2
        ⟨by omega, fun j hj => hall j (by omega)⟩
    simp [match_valgrind_pattern, VALGRIND_ANNOTATION_ROL_COUNT, hsrc, hdst,
      hnone]

/-- Concrete instance of the amended Valgrind pattern theorem: scenario
S1 (x86 immediates `3, 13, 29, 19` and `xchg ebx, ebx`). -/
theorem match_valgrind_pattern_correct_witness :
    match_valgrind_pattern false
        [⟨VgOpcode.rol, Opnd.immed 3, Opnd.reg Reg.xdi, 0, 0, false, 0⟩,
         ⟨VgOpcode.rol, Opnd.immed 13, Opnd.reg Reg.xdi, 0, 0, false, 0⟩,
         ⟨VgOpcode.rol, Opnd.immed 29, Opnd.reg Reg.xdi, 0, 0, false, 0⟩,
         ⟨VgOpcode.rol, Opnd.immed 19, Opnd.reg Reg.xdi, 0, 0, false, 0⟩]
        ⟨VgOpcode.xchg, Opnd.reg Reg.xbx, Opnd.reg Reg.xbx, 0x1234, 0,
          false, 0⟩ =
      some (true, [vg_xor_clear_xbx 0x1234, vg_clean_call]) := by
  have h := (match_valgrind_pattern_correct false
      [⟨VgOpcode.rol, Opnd.immed 3, Opnd.reg Reg.xdi, 0, 0, false, 0⟩,
       ⟨VgOpcode.rol, Opnd.immed 13, Opnd.reg Reg.xdi, 0, 0, false, 0⟩,
       ⟨VgOpcode.rol, Opnd.immed 29, Opnd.reg Reg.xdi, 0, 0, false, 0⟩,
       ⟨VgOpcode.rol, Opnd.immed 19, Opnd.reg Reg.xdi, 0, 0, false, 0⟩]
      ⟨VgOpcode.xchg, Opnd.reg Reg.xbx, Opnd.reg Reg.xbx, 0x1234, 0,
        false, 0⟩).1 (by decide)
  simpa using h

end Annot

namespace Tracer

lemma pipeLoop_good (atomic esz hdr : Nat) (P : Nat → Prop) :
    ∀ (entries : List Entry) (off : Nat) (st : PipeState),
      gapsOk atomic esz hdr (off - st.pipeEnd) entries = true →
      (∀ o, isInstrOffset esz off entries o = true → P o) →
      hdr ≤ off →
      PipeInv atomic hdr P off st →
      PipeInv atomic hdr P (off + esz * entries.length)
          (pipeLoop atomic esz hdr off entries st) ∧
      (off + esz * entries.length) -
          (pipeLoop atomic esz hdr off entries st).pipeEnd + hdr ≤ atomic := by
  intro entries
  induction entries with
  | nil =>
      intro off st hgaps _hoffs _hhdr hinv
      simp only [pipeLoop, List.length_nil, Nat.mul_zero, Nat.add_zero]
      refine ⟨hinv, ?_⟩
      simp only [gapsOk, decide_eq_true_eq] at hgaps
      obtain ⟨_, hend, _, _, _, _⟩ := hinv
      omega
  | cons e rest ih =>
      intro off st hgaps hoffs hhdr hinv
      obtain ⟨hps, hpe, hspan, hzero, hbound, hwrites⟩ := hinv
      simp only [pipeLoop]
      have hlen : off + esz * (e :: rest).length =
          (off + esz) + esz * rest.length := by
        simp only [List.length_cons]
        ring
      rw [hlen]
      by_cases he : e.etype = TraceType.instr
      · simp only [gapsOk, if_pos he, Bool.and_eq_true, decide_eq_true_eq]
          at hgaps
        obtain ⟨hgap, hrest⟩ := hgaps
        have hPoff : P off := by
          refine hoffs off ?_
          simp [isInstrOffset, he]
        by_cases hemit : atomic < off - st.pipeStart
        · -- flush [pipe_start, pipe_end) then advance pipe_end
          have hpe0 : st.pipeEnd ≠ 0 := by
            intro h0
            have := hzero h0
            omega
          obtain ⟨hPpe, hhpe⟩ := hbound hpe0
          have hstep : pipeStep atomic hdr off e st =
              { pipeStart := st.pipeEnd - hdr, pipeEnd := off,
                writes := st.writes ++ [(st.pipeStart, st.pipeEnd)] } := by
            simp only [pipeStep, if_pos he, if_pos hemit, atomic_pipe_write]
          rw [hstep]
          refine ih (off + esz) _ ?_ ?_ (by omega) ?_
          · dsimp only
            have harith : (off + esz) - off = esz := by omega
            rw [harith]
            exact hrest
          · intro o ho
            refine hoffs o ?_
            simp only [isInstrOffset, Bool.or_eq_true]
            exact Or.inr ho
          · dsimp only [PipeInv]
            refine ⟨by omega, by omega, by omega, by omega, ?_, ?_⟩
            · intro _
              exact ⟨hPoff, by omega⟩
            · intro w hw
              rcases List.mem_append.1 hw with hw | hw
              · exact hwrites w hw
              · rcases List.mem_singleton.1 hw with rfl
                exact ⟨hspan, hPpe⟩
        · have hstep : pipeStep atomic hdr off e st =
              { st with pipeEnd := off } := by
            simp only [pipeStep, if_pos he, if_neg hemit]
          rw [hstep]
          refine ih (off + esz) _ ?_ ?_ (by omega) ?_
          · dsimp only
            have harith : (off + esz) - off = esz := by omega
            rw [harith]
            exact hrest
          · intro o ho
            refine hoffs o ?_
            simp only [isInstrOffset, Bool.or_eq_true]
            exact Or.inr ho
          · dsimp only [PipeInv]
            refine ⟨by omega, by omega, by omega, by omega, ?_, ?_⟩
            · intro _
              exact ⟨hPoff, by omega⟩
            · exact hwrites
      · simp only [gapsOk, if_neg he] at hgaps
        have hstep : pipeStep atomic hdr off e st = st := by
          simp only [pipeStep, if_neg he]
        rw [hstep]
        refine ih (off + esz) st ?_ ?_ (by omega) ?_
        · have harith : (off + esz) - st.pipeEnd =
              (off - st.pipeEnd) + esz := by omega
          rw [harith]
          exact hgaps
        · intro o ho
          refine hoffs o ?_
          simp only [isInstrOffset, Bool.or_eq_true]
          exact Or.inr ho
        · exact ⟨hps, by omega, hspan, hzero, hbound, hwrites⟩

lemma memtracePipeWrites_good (atomic esz hdr : Nat) (entries : List Entry)
    (hgaps : gapsOk atomic esz hdr hdr entries = true) :
    ∀ w ∈ memtracePipeWrites atomic esz hdr hdr
        (hdr + esz * entries.length) entries,
      w.2 - w.1 ≤ atomic ∧
        (w.2 = hdr + esz * entries.length ∨
          isInstrOffset esz hdr entries w.2 = true) := by
  have hstart : PipeInv atomic hdr
      (fun o => isInstrOffset esz hdr entries o = true) hdr
      { pipeStart := 0, pipeEnd := 0, writes := [] } := by
    refine ⟨le_rfl, Nat.zero_le _, Nat.zero_le _, fun _ => rfl, ?_, by simp⟩
    intro h0
    exact absurd rfl h0
  have h := pipeLoop_good atomic esz hdr
      (fun o => isInstrOffset esz hdr entries o = true) entries hdr
      { pipeStart := 0, pipeEnd := 0, writes := [] }
      (by simpa using hgaps) (fun o ho => ho) le_rfl hstart
  intro w hw
  simp only [memtracePipeWrites] at hw
  generalize hstdef : pipeLoop atomic esz hdr hdr entries
      { pipeStart := 0, pipeEnd := 0, writes := [] } = st at h hw
  obtain ⟨⟨hps, hpe, hspan, hzero, hbound, hwrites⟩, htail⟩ := h
  by_cases hfin1 : atomic < (hdr + esz * entries.length) - st.pipeStart
  · simp only [if_pos hfin1, atomic_pipe_write] at hw
    have hpe0 : st.pipeEnd ≠ 0 := by
      intro h0
      have := hzero h0
      omega
    obtain ⟨hPpe, hhpe⟩ := hbound hpe0
    by_cases hfin2 : hdr < (hdr + esz * entries.length) - (st.pipeEnd - hdr)
    · rw [if_pos hfin2] at hw
      rcases List.mem_append.1 hw with hw2 | hw2
      · rcases List.mem_append.1 hw2 with hw3 | hw3
        · obtain ⟨hle, hP⟩ := hwrites w hw3
          exact ⟨hle, Or.inr hP⟩
        · rcases List.mem_singleton.1 hw3 with rfl
          exact ⟨hspan, Or.inr hPpe⟩
      · rcases List.mem_singleton.1 hw2 with rfl
        exact ⟨by omega, Or.inl rfl⟩
    · rw [if_neg hfin2] at hw
      rcases List.mem_append.1 hw with hw2 | hw2
      · obtain ⟨hle, hP⟩ := hwrites w hw2
        exact ⟨hle, Or.inr hP⟩
      · rcases List.mem_singleton.1 hw2 with rfl
        exact ⟨hspan, Or.inr hPpe⟩
  · simp only [if_neg hfin1] at hw
    by_cases hfin2 : hdr < (hdr + esz * entries.length) - st.pipeStart
    · rw [if_pos hfin2] at hw
      rcases List.mem_append.1 hw with hw2 | hw2
      · obtain ⟨hle, hP⟩ := hwrites w hw2
        exact ⟨hle, Or.inr hP⟩
      · rcases List.mem_singleton.1 hw2 with rfl
        exact ⟨by omega, Or.inl rfl⟩
    · rw [if_neg hfin2] at hw
      obtain ⟨hle, hP⟩ := hwrites w hw
      exact ⟨hle, Or.inr hP⟩

lemma memtrace_cap_exceeded (g : TracerGlobals) (v2p : Nat → Nat) (tid : Nat)
    (d : ThreadData) (mem : Nat → Nat) (entries : List Entry)
    (pa ra : Option Nat)
    (h1 : 0 < g.maxTraceSize) (h2 : g.maxTraceSize < d.bytesWritten) :
    ∃ out, memtrace g v2p tid false d mem entries pa ra = some out ∧
      out.doWrite = false ∧ out.thread = d ∧
      out.maxTraceSize = g.maxTraceSize ∧
      out.pipeWrites = [] ∧ out.offlineWrite = none ∧
      out.handedOff = false := by
  simp only [memtrace]
  by_cases hearly : (if d.numRefs = 0 ∧ g.offline then d.initHeaderSize
      else g.bufHdrSlotsSize) + g.sizeofEntry * entries.length =
      g.bufHdrSlotsSize
  · rw [if_pos hearly]
    exact ⟨_, rfl, rfl, rfl, rfl, rfl, rfl, rfl⟩
  · rw [if_neg hearly]
    have hC : ¬((false : Bool) = true) ∧ 0 < g.maxTraceSize ∧
        g.maxTraceSize < d.bytesWritten := ⟨by simp, h1, h2⟩
    rw [if_neg (fun hand => hand.1 hC)]
    refine ⟨_, rfl, ?_, ?_, rfl, ?_, ?_, rfl⟩
    · exact decide_eq_false (not_not_intro hC)
    · show ({ d with
        bytesWritten := if ¬(¬((false : Bool) = true) ∧ 0 < g.maxTraceSize ∧
            g.maxTraceSize < d.bytesWritten) then
            d.bytesWritten + ((if d.numRefs = 0 ∧ g.offline then
              d.initHeaderSize else g.bufHdrSlotsSize) +
              g.sizeofEntry * entries.length)
          else d.bytesWritten,
        numRefs := if ¬(¬((false : Bool) = true) ∧ 0 < g.maxTraceSize ∧
            g.maxTraceSize < d.bytesWritten) then
            d.numRefs + entries.length
          else d.numRefs } : ThreadData) = d
      rw [if_neg (not_not_intro hC), if_neg (not_not_intro hC)]
    · exact if_neg (fun h => h.1 hC)
    · exact if_neg (fun h => h.1 hC)

/-- C6 counterexample: a concrete suppressed drain (cap 10, 11 bytes
already written, one buffered entry).  The claim says `bytes_written` and
`num_refs` "still advance as if the entries had been written"
(to `11 + 16` and `5 + 1`); the code leaves them at `11` and `5`. -/
theorem memtrace_suppressed_counters_counterexample :
    ((memtrace exampleGlobals (fun a => a) 7 false exampleThread exampleMem
        [{ etype := TraceType.instr, addr := 0 }] none none).map
      (fun out => (out.doWrite, out.thread.bytesWritten,
        out.thread.numRefs))) = some (false, 11, 5) ∧
    ¬((11 : Nat) = 11 + 16 ∧ (5 : Nat) = 5 + 1) :=
  ⟨rfl, by decide⟩

/-- C6 (amended): when the user size cap has been exceeded and the drain
is not bypassed, the write is suppressed and the per-thread counters do
not advance: `bytes_written` and `num_refs` keep their prior values and
no pipe or file output is produced. -/
theorem memtrace_suppressed_keeps_counters (g : TracerGlobals)
    (v2p : Nat → Nat) (tid : Nat) (d : ThreadData) (mem : Nat → Nat)
    (entries : List Entry) (pa ra : Option Nat)
    (h1 : 0 < g.maxTraceSize) (h2 : g.maxTraceSize < d.bytesWritten) :
    ∃ out, memtrace g v2p tid false d mem entries pa ra = some out ∧
      out.doWrite = false ∧ out.thread.bytesWritten = d.bytesWritten ∧
      out.thread.numRefs = d.numRefs ∧ out.pipeWrites = [] ∧
      out.offlineWrite = none := by
  obtain ⟨out, hout, hdw, hth, _, hpw, how, _⟩ :=
    memtrace_cap_exceeded g v2p tid d mem entries pa ra h1 h2
  exact ⟨out, hout, hdw, by rw [hth], by rw [hth], hpw, how⟩

/-- Concrete instance of the amended suppression theorem. -/
theorem memtrace_suppressed_keeps_counters_witness :
    0 < exampleGlobals.maxTraceSize ∧
    exampleGlobals.maxTraceSize < exampleThread.bytesWritten ∧
    ∃ out, memtrace exampleGlobals (fun a => a) 7 false exampleThread
        exampleMem [{ etype := TraceType.instr, addr := 0 }] none none =
        some out ∧
      out.doWrite = false ∧
      out.thread.bytesWritten = exampleThread.bytesWritten ∧
      out.thread.numRefs = exampleThread.numRefs ∧ out.pipeWrites = [] ∧
      out.offlineWrite = none :=
  ⟨by decide, by decide,
   memtrace_suppressed_keeps_counters exampleGlobals (fun a => a) 7
     exampleThread exampleMem [{ etype := TraceType.instr, addr := 0 }]
     none none (by decide) (by decide)⟩

/-- C8: a drain that ran (the buffer was not at its empty mark) and did
not hand the buffer off rewinds the TLS buffer pointer to
`buf_base + buf_hdr_slots_size`, zeroes every byte of the trace region
`[buf_base, buf_base + trace_buf_size)`, and repaints the redzone bytes
the entries had overwritten with the nonzero sentinel. -/
theorem memtrace_drain_rewind (g : TracerGlobals) (v2p : Nat → Nat)
    (tid : Nat) (skip_size_cap : Bool) (d : ThreadData) (mem : Nat → Nat)
    (entries : List Entry) (pa ra : Option Nat) (out : DrainOutcome)
    (hout : memtrace g v2p tid skip_size_cap d mem entries pa ra = some out)
    (hne : out.earlyReturn = false) (hnh : out.handedOff = false) :
    out.bufPtr = g.bufHdrSlotsSize ∧
    (∀ i, i < g.traceBufSize → out.mem i = 0) ∧
    (∀ i, g.traceBufSize ≤ i →
        i < (if d.numRefs = 0 ∧ g.offline then d.initHeaderSize
            else g.bufHdrSlotsSize) + g.sizeofEntry * entries.length →
      out.mem i = 255) := by
  simp only [memtrace] at hout
  by_cases hearly : (if d.numRefs = 0 ∧ g.offline then d.initHeaderSize
      else g.bufHdrSlotsSize) + g.sizeofEntry * entries.length =
      g.bufHdrSlotsSize
  · rw [if_pos hearly] at hout
    obtain rfl := Option.some.inj hout
    simp at hne
  · rw [if_neg hearly] at hout
    by_cases hhand : ¬(¬skip_size_cap ∧ 0 < g.maxTraceSize ∧
        g.maxTraceSize < d.bytesWritten) ∧ g.handoffBuf
    · rw [if_pos hhand, Option.map_eq_some'] at hout
      obtain ⟨p, _, rfl⟩ := hout
      simp at hnh
    · rw [if_neg hhand] at hout
      obtain rfl := Option.some.inj hout
      refine ⟨rfl, ?_, ?_⟩
      · intro i hi
        simp only [memsetFn, ite_apply]
        by_cases hred : g.traceBufSize <
            (if d.numRefs = 0 ∧ g.offline then d.initHeaderSize
             else g.bufHdrSlotsSize) + g.sizeofEntry * entries.length
        · rw [if_pos hred, if_neg (by omega), if_pos (by omega)]
        · rw [if_neg hred, if_pos (by omega)]
      · intro i hlo hhi
        simp only [memsetFn, ite_apply]
        rw [if_pos (by omega), if_pos (by omega)]

/-- Concrete instance of the drain-rewind theorem: after draining eight
entries (which reached 8 bytes into the redzone) the pointer is rewound
to offset 8, trace-region bytes read zero, and the overwritten redzone
bytes read the sentinel again. -/
theorem memtrace_drain_rewind_witness :
    ((memtrace exampleGlobals (fun a => a) 7 false exampleThreadFresh
        exampleMem exampleEntries8 none none).map
      (fun out => (out.bufPtr, out.mem 5, out.mem 63, out.mem 64,
        out.mem 71))) = some (8, 0, 0, 255, 255) := by
  cases hmt : memtrace exampleGlobals (fun a => a) 7 false exampleThreadFresh
      exampleMem exampleEntries8 none none with
  | none =>
      have hs : (memtrace exampleGlobals (fun a => a) 7 false
          exampleThreadFresh exampleMem exampleEntries8 none none).isSome =
          true := rfl
      rw [hmt] at hs
      exact Bool.noConfusion hs
  | some out =>
      have hproj : (memtrace exampleGlobals (fun a => a) 7 false
          exampleThreadFresh exampleMem exampleEntries8 none none).map
          (fun o => (o.earlyReturn, o.handedOff)) = some (false, false) := rfl
      rw [hmt, Option.map_some'] at hproj
      have hpair := Option.some.inj hproj
      rw [Prod.mk.injEq] at hpair
      obtain ⟨he, hh⟩ := hpair
      obtain ⟨hb, hz, hr⟩ := memtrace_drain_rewind exampleGlobals
        (fun a => a) 7 false exampleThreadFresh exampleMem exampleEntries8
        none none out hmt he hh
      rw [Option.map_some']
      have h5 := hz 5 (by decide)
      have h63 := hz 63 (by decide)
      have h64 := hr 64 (by decide) (by decide)
      have h71 := hr 71 (by decide) (by decide)
      rw [hb, h5, h63, h64, h71]
      rfl

lemma subsequentDrains_suppressed (g : TracerGlobals) (v2p : Nat → Nat)
    (tid : Nat) :
    ∀ (runs : List (List Entry)) (maxT : Nat) (d : ThreadData)
      (mem : Nat → Nat), 0 < maxT → maxT < d.bytesWritten →
      ∀ out ∈ subsequentDrains g v2p tid maxT d mem runs,
        out.doWrite = false ∧ out.pipeWrites = [] ∧
          out.offlineWrite = none := by
  intro runs
  induction runs with
  | nil =>
      intro maxT d mem _ _ out hout
      simp [subsequentDrains] at hout
  | cons es rest ih =>
      intro maxT d mem h1 h2 out hout
      obtain ⟨out1, hmem, hdw, hth, hmax, hpw, how, _⟩ :=
        memtrace_cap_exceeded { g with maxTraceSize := maxT } v2p tid d mem
          es none none h1 h2
      rw [subsequentDrains, hmem] at hout
      rcases List.mem_cons.1 hout with rfl | hout2
      · exact ⟨hdw, hpw, how⟩
      · refine ih out1.maxTraceSize out1.thread out1.mem ?_ ?_ out hout2
        · rw [hmax]
          exact h1
        · rw [hmax, hth]
          exact h2

/-- C7: when the primary buffer allocation fails, `create_buffer` aborts
fatally if no reserve buffer exists; otherwise it switches the thread's
buffer base to the reserve and sets `op_max_trace_size` to
`bytes_written - 1`, strictly below the bytes already written, so every
subsequent non-bypassed drain suppresses its output. -/
theorem create_buffer_oom (ms : Nat) (d : ThreadData) (ra : Option Nat) :
    (d.reserveBuf = none → create_buffer none ra ms d = none) ∧
    (∀ rb, d.reserveBuf = some rb → 2 ≤ d.bytesWritten →
      d.bytesWritten < 2 ^ 64 →
      create_buffer none ra ms d =
        some (d.bytesWritten - 1, { d with bufBase := rb }) ∧
      0 < d.bytesWritten - 1 ∧ d.bytesWritten - 1 < d.bytesWritten ∧
      (∀ (g : TracerGlobals) (v2p : Nat → Nat) (tid : Nat)
          (mem : Nat → Nat) (runs : List (List Entry)),
        ∀ out ∈ subsequentDrains g v2p tid (d.bytesWritten - 1)
            { d with bufBase := rb } mem runs,
          out.doWrite = false ∧ out.pipeWrites = [] ∧
            out.offlineWrite = none)) := by
  constructor
  · intro h
    simp [create_buffer, h]
  · intro rb hrb hb2 hblt
    have h64 : (2 : Nat) ^ 64 = 18446744073709551616 := by norm_num
    have hmod : (d.bytesWritten + 18446744073709551615) %
        18446744073709551616 = d.bytesWritten - 1 := by
      rw [h64] at hblt
      omega
    refine ⟨?_, by omega, by omega, ?_⟩
    · simp [create_buffer, hrb, hmod]
    · intro g v2p tid mem runs out hout
      refine subsequentDrains_suppressed g v2p tid runs (d.bytesWritten - 1)
        { d with bufBase := rb } mem (by omega) ?_ out hout
      show d.bytesWritten - 1 < d.bytesWritten
      omega

/-- Concrete instance of the out-of-memory theorem: with no reserve the
call is fatal; with a reserve (buffer id 2, 20 bytes written) the thread
switches to it, the cap drops to 19, and two later drains of eight
entries each produce no output. -/
theorem create_buffer_oom_witness :
    create_buffer none none 10 exampleThread = none ∧
    create_buffer none none 10 exampleThreadReserve =
      some (19, { exampleThreadReserve with bufBase := 2 }) ∧
    ((subsequentDrains exampleGlobals (fun a => a) 7 19
        { exampleThreadReserve with bufBase := 2 } exampleMem
        [exampleEntries8, exampleEntries8]).map
      (fun out => (out.doWrite, out.pipeWrites, out.offlineWrite))) =
      [(false, [], none), (false, [], none)] := by
  refine ⟨(create_buffer_oom 10 exampleThread none).1 rfl, ?_, ?_⟩
  · exact ((create_buffer_oom 10 exampleThreadReserve none).2 2 rfl
      (by decide) (by norm_num [exampleThreadReserve])).1
  · rfl

/-- C5: in online (pipe) mode every write a drain issues to the pipe is
at most `atomic_write_size` bytes, and every write except the final
flush ends exactly at the start of a `TRACE_TYPE_INSTR` entry — splits
are placed only immediately before an instruction entry, so the data
entries that follow an instruction stay in the same write — under the
entry-spacing assumption (`gapsOk`) that the code itself asserts in
`atomic_pipe_write`. -/
theorem memtrace_pipe_atomicity (g : TracerGlobals) (v2p : Nat → Nat)
    (tid : Nat) (skip_size_cap : Bool) (d : ThreadData) (mem : Nat → Nat)
    (entries : List Entry) (pa ra : Option Nat) (out : DrainOutcome)
    (hout : memtrace g v2p tid skip_size_cap d mem entries pa ra = some out)
    (honline : g.offline = false)
    (hgaps : gapsOk g.atomicWriteSize g.sizeofEntry g.bufHdrSlotsSize
        g.bufHdrSlotsSize entries = true) :
    ∀ w ∈ out.pipeWrites,
      w.2 - w.1 ≤ g.atomicWriteSize ∧
        (w.2 = g.bufHdrSlotsSize + g.sizeofEntry * entries.length ∨
          isInstrOffset g.sizeofEntry g.bufHdrSlotsSize entries w.2 =
            true) := by
  have hmain := memtracePipeWrites_good g.atomicWriteSize g.sizeofEntry
      g.bufHdrSlotsSize entries hgaps
  simp only [memtrace] at hout
  have hoffP : ¬(d.numRefs = 0 ∧ g.offline) := by
    rintro ⟨-, hco⟩
    rw [honline] at hco
    exact Bool.noConfusion hco
  simp only [if_neg hoffP] at hout
  by_cases hearly : g.bufHdrSlotsSize + g.sizeofEntry * entries.length =
      g.bufHdrSlotsSize
  · rw [if_pos hearly] at hout
    obtain rfl := Option.some.inj hout
    intro w hw
    simp at hw
  · rw [if_neg hearly] at hout
    by_cases hhand : ¬(¬skip_size_cap ∧ 0 < g.maxTraceSize ∧
        g.maxTraceSize < d.bytesWritten) ∧ g.handoffBuf
    · rw [if_pos hhand, Option.map_eq_some'] at hout
      obtain ⟨p, _, rfl⟩ := hout
      intro w hw
      by_cases hdwon : ¬(¬skip_size_cap ∧ 0 < g.maxTraceSize ∧
          g.maxTraceSize < d.bytesWritten) ∧ ¬g.offline
      · simp only [if_pos hdwon] at hw
        exact hmain w hw
      · simp only [if_neg hdwon] at hw
        simp at hw
    · rw [if_neg hhand] at hout
      obtain rfl := Option.some.inj hout
      intro w hw
      by_cases hdwon : ¬(¬skip_size_cap ∧ 0 < g.maxTraceSize ∧
          g.maxTraceSize < d.bytesWritten) ∧ ¬g.offline
      · simp only [if_pos hdwon] at hw
        exact hmain w hw
      · simp only [if_neg hdwon] at hw
        simp at hw

/-- Concrete instance of the pipe-atomicity theorem: draining the eight
example entries issues the writes `(0,32)`, `(24,56)`, `(48,72)`, each
at most 32 bytes, ending at instruction offsets 32 and 56 and at
`buf_ptr = 72`. -/
theorem memtrace_pipe_atomicity_witness :
    ((memtrace exampleGlobals (fun a => a) 7 false exampleThreadFresh
        exampleMem exampleEntries8 none none).map DrainOutcome.pipeWrites) =
      some [(0, 32), (24, 56), (48, 72)] ∧
    ∀ w ∈ [((0 : Nat), (32 : Nat)), (24, 56), (48, 72)],
      w.2 - w.1 ≤ exampleGlobals.atomicWriteSize ∧
        (w.2 = exampleGlobals.bufHdrSlotsSize +
            exampleGlobals.sizeofEntry * exampleEntries8.length ∨
          isInstrOffset exampleGlobals.sizeofEntry
            exampleGlobals.bufHdrSlotsSize exampleEntries8 w.2 = true) := by
  have hpw : (memtrace exampleGlobals (fun a => a) 7 false exampleThreadFresh
      exampleMem exampleEntries8 none none).map DrainOutcome.pipeWrites =
      some [(0, 32), (24, 56), (48, 72)] := rfl
  refine ⟨hpw, ?_⟩
  cases hmt : memtrace exampleGlobals (fun a => a) 7 false exampleThreadFresh
      exampleMem exampleEntries8 none none with
  | none =>
      rw [hmt] at hpw
      exact Option.noConfusion hpw
  | some out =>
      have hw : out.pipeWrites = [(0, 32), (24, 56), (48, 72)] := by
        rw [hmt, Option.map_some'] at hpw
        exact Option.some.inj hpw
      intro w hmem2
      refine memtrace_pipe_atomicity exampleGlobals (fun a => a) 7 false
        exampleThreadFresh exampleMem exampleEntries8 none none out hmt rfl
        (by decide) w ?_
      rw [hw]
      exact hmem2

end Tracer
